import Mathlib

/-!
Verification of the `archive` Go package (kristinjeanna/archive).

The package has two components:
* a Type Resolver, `DetermineType`, mapping a filename to an archive type
  tag by case-insensitive suffix matching against a table `typeInfoMap`;
* five Entry Walkers (`WalkTar`, `WalkTarBzip2`, `WalkTarGz`, `WalkTarXz`,
  `WalkZip`) that open a path, layer a decompression filter, and invoke a
  callback per contained entry.

The embedding below translates `archive.go` definition by definition.
Machine strings are `String` viewed through `String.data : List Char`;
the external libraries (os, regexp, gzip, xz, tar, zip) enter as explicit
arguments or as the documented semantics of the call being made.
-/

namespace Archive

/-- Go `type Type uint` (named `Ty` here because `Type` is reserved in
Lean).  Go's `uint` is 64-bit on all supported platforms and the values
used are 0..5, so a plain `Nat` is a faithful model. -/
abbrev Ty := Nat

/-- Go constant `Tar Type = iota + 1`. -/
def Tar : Ty := 1

/-- Go constant `TarBz2`. -/
def TarBz2 : Ty := 2

/-- Go constant `TarGz`. -/
def TarGz : Ty := 3

/-- Go constant `TarXz`. -/
def TarXz : Ty := 4

/-- Go constant `Zip`. -/
def Zip : Ty := 5

/-- Go `error` values observable through this package.
`errUnknownType` is the package-level `ErrUnknownType` sentinel;
`archiveOpenFailed` is `fmt.Errorf(fmtErrArchiveOpen, cause)`;
`newGzReaderFailed` is `fmt.Errorf(fmtErrNewGzReader, cause)`;
`newXzReaderFailed` is `fmt.Errorf(fmtErrNewXzReader, cause)`;
`ioErr` stands for an error produced by the OS or a decoder library;
`callbackErr` stands for an arbitrary error value a caller's callback
returns.  Wrapping constructors keep their cause as a field. -/
inductive GoError where
  | errUnknownType
  | archiveOpenFailed (cause : GoError)
  | newGzReaderFailed (cause : GoError)
  | newXzReaderFailed (cause : GoError)
  | ioErr (msg : String)
  | callbackErr (msg : String)
deriving DecidableEq, Repr

/-- Go `var ErrUnknownType = errors.New("archive: unable to determine type")`. -/
def ErrUnknownType : GoError := GoError.errUnknownType

/-- Go `type typeInfo struct { extensions []string; regex string }`.
The zero value of `regex` is the empty string. -/
structure typeInfo where
  extensions : List String
  regex : String
deriving DecidableEq, Repr

/-- Go `var typeInfoMap map[Type]typeInfo`, populated by the package's
`init` function in this insertion order.  A Go map's range order is
unspecified, so the embedding keeps the entries as an association list in
the declared insertion order; `determineTypeWith` below quantifies over
arbitrary permutations of this list wherever the order could matter. -/
def typeInfoMap : List (Ty × typeInfo) :=
  [(Tar,    { extensions := [".tar"], regex := "" }),
   (TarBz2, { extensions := [".tar.bz2", ".tar.bzip2", ".tbz", ".tbz2"], regex := "" }),
   (TarGz,  { extensions := [".tar.gz", ".tgz"], regex := "" }),
   (TarXz,  { extensions := [".tar.xz", ".txz"], regex := "" }),
   (Zip,    { extensions := [".zip"], regex := "" })]

/-- Go `strings.Join(extensions, "|")`: concatenate with `"|"` between
consecutive elements. -/
def joinBar : List String → String
  | [] => ""
  | [s] => s
  | s :: rest => s ++ "|" ++ joinBar rest

/-- Character-level form of Go
`strings.Replace(s, ".", "\\.", -1)`: every `'.'` is replaced by the two
characters `'\\'` `'.'` (the search pattern is a single character, so a
character-by-character rewrite is exact). -/
def escapeDotsChars : List Char → List Char
  | [] => []
  | c :: cs => if c = '.' then '\\' :: '.' :: escapeDotsChars cs else c :: escapeDotsChars cs

/-- Go `strings.Replace(regex, ".", "\\.", -1)` on a `String`. -/
def escapeDots (s : String) : String := ⟨escapeDotsChars s.data⟩

/-- Go `makeRegex`: join the extensions with `"|"`, escape the dots, and
wrap as `fmt.Sprintf("(%s)$", regex)`. -/
def makeRegex (extensions : List String) : String :=
  "(" ++ escapeDots (joinBar extensions) ++ ")$"

/-- Split a character list at every `'|'` (the alternation separator of
the regexes produced by `makeRegex`). -/
def splitBar : List Char → List (List Char)
  | [] => [[]]
  | c :: rest =>
    let r := splitBar rest
    if c = '|' then [] :: r
    else
      match r with
      | [] => [[c]]
      | g :: gs => (c :: g) :: gs

/-- Remove the regex escaping: `'\\'` followed by a character stands for
that literal character. -/
def unescapeChars : List Char → List Char
  | [] => []
  | '\\' :: c :: cs => c :: unescapeChars cs
  | c :: cs => c :: unescapeChars cs

/-- Semantics of Go `len(regexp.MustCompile(rx).FindStringSubmatch(f)) != 0`
for the regexes produced by `makeRegex`.  Such a regex is a parenthesised
alternation of backslash-escaped literal strings followed by `$`; in Go's
regexp (RE2, default flags) `$` anchors at end of text, so the regex
matches `f` exactly when `f` ends with one of the literal alternatives.
The parsing below inverts `makeRegex`: strip `"("` and `")$"`, split the
body at `'|'`, and unescape each alternative. -/
def regexFindMatch (rx : String) (f : String) : Bool :=
  ((splitBar (rx.data.drop 1).dropLast.dropLast).map unescapeChars).any
    (fun e => e.isSuffixOf f.data)

/-- One character of Go `strings.ToLower`.  Go lowers each rune by the
Unicode simple case mapping (`unicode.ToLower`).  The code points whose
lowercase image lies in the ASCII range are exactly `'A'..'Z'`
(`U+0041..U+005A`, mapped to `'a'..'z'`), `U+0130` LATIN CAPITAL LETTER I
WITH DOT ABOVE (mapped to `'i'`), and `U+212A` KELVIN SIGN (mapped to
`'k'`); this definition maps those three groups as Go does and leaves
every other code point unchanged.  A code point outside these groups may
be changed by Go (e.g. `U+039B` to `U+03BB`), but its Go image is again
non-ASCII; `determineType_lowering_robust` below proves that
`DetermineType` cannot observe such a difference, because every
registered extension consists of ASCII characters only. -/
def lowerChar (c : Char) : Char :=
  if 65 ≤ c.toNat ∧ c.toNat ≤ 90 then Char.ofNat (c.toNat + 32)
  else if c.toNat = 0x130 then 'i'
  else if c.toNat = 0x212A then 'k'
  else c

/-- Go `strings.ToLower`: per-character simple lowering (see `lowerChar`
for the exact relation to the Unicode mapping). -/
def toLowerGo (s : String) : String := ⟨s.data.map lowerChar⟩

/-- The body of `DetermineType`'s `for archType, info := range typeInfoMap`
loop, over an explicit list of map entries.  `info` is a copy of the map
value, so the assignment `info.regex = makeRegex(info.extensions)` only
updates the local copy (here: a shadowing `let`). -/
def detLoop (f : String) : List (Ty × typeInfo) → Ty × Option GoError
  | [] => (0, some GoError.errUnknownType)
  | (archType, info) :: rest =>
    let info := if info.regex = "" then { info with regex := makeRegex info.extensions } else info
    if regexFindMatch info.regex f then (archType, none) else detLoop f rest

/-- Go `DetermineType`.  The Go `(Type, error)` pair is modelled as
`Ty × Option GoError` (`none` = `nil` error).  The iteration order of the
Go map is unspecified; this definition fixes the insertion order of
`typeInfoMap`, and `determineTypeWith` ranges over the other orders. -/
def DetermineType (filename : String) : Ty × Option GoError :=
  detLoop (toLowerGo filename) typeInfoMap

/-- `DetermineType` as executed under an arbitrary iteration order of the
map entries. -/
def determineTypeWith (order : List (Ty × typeInfo)) (filename : String) : Ty × Option GoError :=
  detLoop (toLowerGo filename) order

/-- `DetermineType` with an arbitrary per-character lowering `γ` in place
of `lowerChar`, used to show the result does not depend on how a lowering
acts outside the code points that lower into ASCII. -/
def determineTypeLower (γ : Char → Char) (filename : String) : Ty × Option GoError :=
  detLoop ⟨filename.data.map γ⟩ typeInfoMap

/-- End-anchored suffix matching: does `f` end with one of `exts`?
`entryMatches_eq_suffixMatch` below proves that for every entry of
`typeInfoMap` the regex `DetermineType` builds and runs tests exactly
this. -/
def suffixMatch (exts : List String) (f : String) : Bool :=
  exts.any fun e => e.data.isSuffixOf f.data

/-- The test `DetermineType`'s loop applies to one map entry: build the
regex if the cached field is empty, then match. -/
def entryMatches (f : String) (p : Ty × typeInfo) : Bool :=
  regexFindMatch (if p.2.regex = "" then makeRegex p.2.extensions else p.2.regex) f

/-- `detLoop` with the backing store of the Go map threaded through as
explicit state.  Go's `for archType, info := range typeInfoMap` hands the
loop body a copy of each map value, and the body never executes a map
write (`typeInfoMap[...] = ...`), so the store is returned at every exit
unchanged; the copy's field assignment is the shadowing `let`. -/
def detLoopSt (f : String) :
    List (Ty × typeInfo) → List (Ty × typeInfo) →
    (Ty × Option GoError) × List (Ty × typeInfo)
  | [], table => ((0, some GoError.errUnknownType), table)
  | (archType, info) :: rest, table =>
    let info := if info.regex = "" then { info with regex := makeRegex info.extensions } else info
    if regexFindMatch info.regex f then ((archType, none), table)
    else detLoopSt f rest table

/-- `DetermineType` with the map's backing store as explicit state:
returns the Go result together with the store as it is after the call. -/
def determineTypeSt (table : List (Ty × typeInfo)) (filename : String) :
    (Ty × Option GoError) × List (Ty × typeInfo) :=
  detLoopSt (toLowerGo filename) table table

/-- The header metadata `tar.Reader.Next` yields for one entry (only the
name is relevant to the walking logic). -/
structure TarHeader where
  name : String
deriving DecidableEq, Repr

/-- One entry of a zip archive's central directory (`*zip.File`). -/
structure ZipFile where
  name : String
deriving DecidableEq, Repr

/-- What a tar decoder yields to `readTar`: the successive headers
`tar.Reader.Next` returns, and how the stream ends — `none` models
`io.EOF` (clean end of archive), `some e` a mid-stream decode error. -/
structure TarStream where
  entries : List TarHeader
  terminal : Option GoError
deriving DecidableEq, Repr

/-- Go `type TarCallback func(*tar.Reader, *tar.Header) error`: `none`
result is a `nil` error.  A Go function value may itself be `nil`, so the
walkers below take an `Option TarCallback`. -/
abbrev TarCallback := TarHeader → Option GoError

/-- Go `type ZipCallback func(*zip.File) error`. -/
abbrev ZipCallback := ZipFile → Option GoError

/-- Go `readTar`: pull headers until EOF or error; invoke the callback on
each header when it is non-nil; a non-nil callback result or a non-EOF
decode error returns immediately.  Besides Go's error result the embedding
also returns the invocation trace — the headers the callback was actually
invoked on, in order — so that "the callback is invoked zero times / is
not invoked on later entries" is observable. -/
def readTar (callback : Option TarCallback) :
    List TarHeader → Option GoError → Option GoError × List TarHeader
  | [], terminal => (terminal, [])
  | h :: rest, terminal =>
    match callback with
    | none => readTar callback rest terminal
    | some k =>
      match k h with
      | some e => (some e, [h])
      | none =>
        let r := readTar callback rest terminal
        (r.1, h :: r.2)

/-- The `for _, f := range r.File` loop of Go `WalkZip`, with the same
invocation trace as `readTar`. -/
def walkZipFiles (callback : Option ZipCallback) :
    List ZipFile → Option GoError × List ZipFile
  | [] => (none, [])
  | f :: rest =>
    match callback with
    | none => walkZipFiles callback rest
    | some k =>
      match k f with
      | some e => (some e, [f])
      | none =>
        let r := walkZipFiles callback rest
        (r.1, f :: r.2)

/-- Go `WalkTar`.  `os.Open`'s outcome for the path is the argument
`openResult` (`some cause` = open failed with that cause); `content` is
the stream the tar decoder yields from the opened file. -/
def WalkTar (openResult : Option GoError) (content : TarStream)
    (callback : Option TarCallback) : Option GoError × List TarHeader :=
  match openResult with
  | some err => (some (GoError.archiveOpenFailed err), [])
  | none => readTar callback content.entries content.terminal

/-- Go `WalkTarBzip2`.  `bzip2.NewReader` returns no error, so after a
successful open the walk proceeds directly on the stream the bzip2 filter
plus tar decoder yield. -/
def WalkTarBzip2 (openResult : Option GoError) (content : TarStream)
    (callback : Option TarCallback) : Option GoError × List TarHeader :=
  match openResult with
  | some err => (some (GoError.archiveOpenFailed err), [])
  | none => readTar callback content.entries content.terminal

/-- Go `WalkTarGz`.  `gzip.NewReader` validates the gzip header and can
fail; its outcome is `gzResult` (`Except.error cause` = construction
failed). -/
def WalkTarGz (openResult : Option GoError) (gzResult : Except GoError TarStream)
    (callback : Option TarCallback) : Option GoError × List TarHeader :=
  match openResult with
  | some err => (some (GoError.archiveOpenFailed err), [])
  | none =>
    match gzResult with
    | Except.error err => (some (GoError.newGzReaderFailed err), [])
    | Except.ok content => readTar callback content.entries content.terminal

/-- Go `WalkTarXz`.  `xz.NewReader` validates the xz header and can
fail; its outcome is `xzResult`. -/
def WalkTarXz (openResult : Option GoError) (xzResult : Except GoError TarStream)
    (callback : Option TarCallback) : Option GoError × List TarHeader :=
  match openResult with
  | some err => (some (GoError.archiveOpenFailed err), [])
  | none =>
    match xzResult with
    | Except.error err => (some (GoError.newXzReaderFailed err), [])
    | Except.ok content => readTar callback content.entries content.terminal

/-- Go `WalkZip`.  `zip.OpenReader` opens the file and reads the central
directory in one step; on success the walker loops over the listed
files. -/
def WalkZip (openResult : Except GoError (List ZipFile))
    (callback : Option ZipCallback) : Option GoError × List ZipFile :=
  match openResult with
  | Except.error err => (some (GoError.archiveOpenFailed err), [])
  | Except.ok files => walkZipFiles callback files

/-- A sample tar callback that aborts on the entry named "stop". -/
def demoTarCallback : TarCallback :=
  fun h => if h.name = "stop" then some (GoError.callbackErr "stop") else none

/-- A sample zip callback that aborts on the entry named "stop". -/
def demoZipCallback : ZipCallback :=
  fun f => if f.name = "stop" then some (GoError.callbackErr "stop") else none

example : DetermineType "foo.tar" = (Tar, none) := by decide
example : DetermineType "foo.zip.tar.xz" = (TarXz, none) := by decide
example : DetermineType "foo.tar.xz.zip" = (Zip, none) := by decide
example : DetermineType "foo.tAr.XZ" = (TarXz, none) := by decide
example : DetermineType "foo.tar1" = (0, some GoError.errUnknownType) := by decide
example : DetermineType "foo.is.bar.abc.123-579.wxyz.tar.bz2" = (TarBz2, none) := by decide
example : DetermineType "/usr/local/bin/foo.txz" = (TarXz, none) := by decide
example : DetermineType "foo.zİp" = (Zip, none) := by decide
example : DetermineType "foo.tar.bzİp2" = (TarBz2, none) := by decide

/-! ## Lemmas about the Type Resolver -/

/-- Case analysis over the five entries of `typeInfoMap`. -/
theorem typeInfoMap_cases {motive : Ty × typeInfo → Prop}
    (h1 : motive (Tar, { extensions := [".tar"], regex := "" }))
    (h2 : motive (TarBz2, { extensions := [".tar.bz2", ".tar.bzip2", ".tbz", ".tbz2"], regex := "" }))
    (h3 : motive (TarGz, { extensions := [".tar.gz", ".tgz"], regex := "" }))
    (h4 : motive (TarXz, { extensions := [".tar.xz", ".txz"], regex := "" }))
    (h5 : motive (Zip, { extensions := [".zip"], regex := "" })) :
    ∀ p ∈ typeInfoMap, motive p := by
  intro p hp
  simp only [typeInfoMap, List.mem_cons, List.not_mem_nil, or_false] at hp
  rcases hp with rfl | rfl | rfl | rfl | rfl <;> assumption

/-- For every entry of the table, the regex built and run by the loop
tests exactly "the lowered filename ends with one of the entry's
extensions". -/
theorem entryMatches_eq_suffixMatch :
    ∀ p ∈ typeInfoMap, ∀ f, entryMatches f p = suffixMatch p.2.extensions f := by
  refine typeInfoMap_cases ?_ ?_ ?_ ?_ ?_ <;> intro f <;> rfl

/-- One unrolling of `detLoop`. -/
theorem detLoop_cons (f : String) (t : Ty) (info : typeInfo) (rest : List (Ty × typeInfo)) :
    detLoop f ((t, info) :: rest) =
      if entryMatches f (t, info) then (t, none) else detLoop f rest := by
  simp only [detLoop, entryMatches]
  by_cases h : info.regex = "" <;> simp [h]

/-- `detLoop` returns the first matching entry's type, or the unknown
sentinel with the unknown-type error. -/
theorem detLoop_eq_find (f : String) (l : List (Ty × typeInfo)) :
    detLoop f l =
      match l.find? (entryMatches f) with
      | some p => (p.1, none)
      | none => (0, some GoError.errUnknownType) := by
  induction l with
  | nil => rfl
  | cons p rest ih =>
    obtain ⟨t, info⟩ := p
    rw [detLoop_cons]
    cases hc : entryMatches f (t, info)
    · rw [if_neg (by simp [hc]), List.find?_cons_of_neg _ (by simp [hc]), ih]
    · rw [if_pos (by simp [hc]), List.find?_cons_of_pos _ (by simp [hc])]

/-- Two suffixes of the same list are comparable. -/
theorem suffix_comparable {e1 e2 g : List Char} (h1 : e1 <:+ g) (h2 : e2 <:+ g) :
    e1 <:+ e2 ∨ e2 <:+ e1 :=
  (Nat.le_total e1.length e2.length).imp
    (fun hl => List.suffix_of_suffix_length_le h1 h2 hl)
    (fun hl => List.suffix_of_suffix_length_le h2 h1 hl)

/-- Across distinct types, no registered extension is a string-suffix of
another type's registered extension (finite check over the table). -/
theorem crossDisjointB :
    (typeInfoMap.all fun p => typeInfoMap.all fun q =>
      decide (p.1 = q.1) ||
        (p.2.extensions.all fun e1 => q.2.extensions.all fun e2 =>
          !(e1.data.isSuffixOf e2.data))) = true := by decide

/-- Propositional form of `crossDisjointB`. -/
theorem cross_not_suffix :
    ∀ p ∈ typeInfoMap, ∀ q ∈ typeInfoMap, p.1 ≠ q.1 →
      ∀ e1 ∈ p.2.extensions, ∀ e2 ∈ q.2.extensions, ¬ e1.data <:+ e2.data := by
  have h := crossDisjointB
  simp only [List.all_eq_true, Bool.or_eq_true, decide_eq_true_eq,
    Bool.not_eq_true'] at h
  intro p hp q hq hne e1 he1 e2 he2 hsuf
  rcases h p hp q hq with h1 | h2
  · exact hne h1
  · have hfalse := h2 e1 he1 e2 he2
    rw [(List.isSuffixOf_iff_suffix).mpr hsuf] at hfalse
    exact Bool.noConfusion hfalse

/-- The five entries of `typeInfoMap` carry five distinct type tags. -/
theorem typeInfoMap_keys_injective :
    ∀ p ∈ typeInfoMap, ∀ q ∈ typeInfoMap, p.1 = q.1 → p = q := by
  refine typeInfoMap_cases ?_ ?_ ?_ ?_ ?_ <;>
    · refine typeInfoMap_cases ?_ ?_ ?_ ?_ ?_ <;> decide

/-- For a fixed (lowered) filename, at most one entry of the table
matches: a string cannot end in registered suffixes of two distinct
types. -/
theorem entryMatches_unique (f : String) :
    ∀ p ∈ typeInfoMap, ∀ q ∈ typeInfoMap,
      entryMatches f p = true → entryMatches f q = true → p = q := by
  intro p hp q hq hmp hmq
  by_cases hpq : p.1 = q.1
  · exact typeInfoMap_keys_injective p hp q hq hpq
  · exfalso
    rw [entryMatches_eq_suffixMatch p hp f] at hmp
    rw [entryMatches_eq_suffixMatch q hq f] at hmq
    simp only [suffixMatch, List.any_eq_true] at hmp hmq
    obtain ⟨e1, he1, hs1⟩ := hmp
    obtain ⟨e2, he2, hs2⟩ := hmq
    have hs1' := (List.isSuffixOf_iff_suffix).mp hs1
    have hs2' := (List.isSuffixOf_iff_suffix).mp hs2
    rcases suffix_comparable hs1' hs2' with h | h
    · exact cross_not_suffix p hp q hq hpq e1 he1 e2 he2 h
    · exact cross_not_suffix q hq p hp (fun hh => hpq hh.symm) e2 he2 e1 he1 h

/-- `find?` does not depend on the order of the list when at most one
element satisfies the predicate. -/
theorem find?_perm_of_unique {α : Type} {l l' : List α} (hperm : l.Perm l') (pred : α → Bool)
    (uniq : ∀ a ∈ l, ∀ b ∈ l, pred a = true → pred b = true → a = b) :
    l.find? pred = l'.find? pred := by
  cases h : l.find? pred with
  | none =>
    have hn := List.find?_eq_none.mp h
    exact (List.find?_eq_none.mpr fun x hx => hn x (hperm.mem_iff.mpr hx)).symm
  | some a =>
    have ha : pred a = true := List.find?_some h
    have hmem : a ∈ l := List.mem_of_find?_eq_some h
    cases h' : l'.find? pred with
    | none => exact absurd ha (List.find?_eq_none.mp h' a (hperm.mem_iff.mp hmem))
    | some b =>
      have hb : pred b = true := List.find?_some h'
      have hbm : b ∈ l := hperm.mem_iff.mpr (List.mem_of_find?_eq_some h')
      exact congrArg some (uniq a hmem b hbm ha hb)

/-- `lowerChar` is idempotent: every character it produces is a fixed
point of it. -/
theorem lowerChar_idem (c : Char) : lowerChar (lowerChar c) = lowerChar c := by
  by_cases h1 : 65 ≤ c.toNat ∧ c.toNat ≤ 90
  · have hc : lowerChar c = Char.ofNat (c.toNat + 32) := by
      unfold lowerChar; rw [if_pos h1]
    rw [hc]
    obtain ⟨ha, hb⟩ := h1
    set n := c.toNat with hn
    interval_cases n <;> decide
  · by_cases h2 : c.toNat = 0x130
    · have hc : lowerChar c = 'i' := by
        unfold lowerChar; rw [if_neg h1, if_pos h2]
      rw [hc]; decide
    · by_cases h3 : c.toNat = 0x212A
      · have hc : lowerChar c = 'k' := by
          unfold lowerChar; rw [if_neg h1, if_neg h2, if_pos h3]
        rw [hc]; decide
      · have hc : lowerChar c = c := by
          unfold lowerChar; rw [if_neg h1, if_neg h2, if_neg h3]
        rw [hc, hc]

/-- `toLowerGo` is idempotent. -/
theorem toLowerGo_idem (s : String) : toLowerGo (toLowerGo s) = toLowerGo s := by
  show (⟨(s.data.map lowerChar).map lowerChar⟩ : String) = ⟨s.data.map lowerChar⟩
  rw [List.map_map, show lowerChar ∘ lowerChar = lowerChar from funext lowerChar_idem]

/-- Two per-character maps that agree about which characters they send to
each character of an ASCII-only list produce it as an image of the same
lists. -/
theorem map_eq_ascii_congr (γ δ : Char → Char)
    (hγδ : ∀ (c a : Char), a.toNat < 128 → (γ c = a ↔ δ c = a)) :
    ∀ (l e : List Char), (∀ a ∈ e, a.toNat < 128) → (l.map γ = e ↔ l.map δ = e) := by
  intro l
  induction l with
  | nil => intro e _; exact Iff.rfl
  | cons c l' ih =>
    intro e he
    cases e with
    | nil => simp
    | cons a e' =>
      have ha : a.toNat < 128 := he a (List.mem_cons_self a e')
      have he' : ∀ x ∈ e', x.toNat < 128 := fun x hx => he x (List.mem_cons_of_mem a hx)
      simp only [List.map_cons, List.cons.injEq]
      exact and_congr (hγδ c a ha) (ih e' he')

/-- Two per-character maps that agree about which characters they send to
each ASCII character leave an ASCII-only suffix test indistinguishable. -/
theorem suffix_map_ascii_congr (γ δ : Char → Char)
    (hγδ : ∀ (c a : Char), a.toNat < 128 → (γ c = a ↔ δ c = a))
    (e : List Char) (he : ∀ a ∈ e, a.toNat < 128) (l : List Char) :
    (e <:+ l.map γ) ↔ (e <:+ l.map δ) := by
  induction l with
  | nil => simp
  | cons c l' ih =>
    simp only [List.map_cons, List.suffix_cons_iff]
    refine or_congr ?_ ih
    constructor
    · intro h
      exact ((map_eq_ascii_congr γ δ hγδ (c :: l') e he).mp h.symm).symm
    · intro h
      exact ((map_eq_ascii_congr γ δ hγδ (c :: l') e he).mpr h.symm).symm

/-- `find?` only looks at the predicate's values on the list's members. -/
theorem find?_congr_mem {α : Type} (p q : α → Bool) :
    ∀ l : List α, (∀ a ∈ l, p a = q a) → l.find? p = l.find? q := by
  intro l
  induction l with
  | nil => intro _; rfl
  | cons a rest ih =>
    intro h
    have ha := h a (List.mem_cons_self a rest)
    cases hq : q a
    · rw [List.find?_cons_of_neg _ (by simp [ha, hq]),
        List.find?_cons_of_neg _ (by simp [hq])]
      exact ih fun x hx => h x (List.mem_cons_of_mem a hx)
    · rw [List.find?_cons_of_pos _ (by simp [ha, hq]),
        List.find?_cons_of_pos _ (by simp [hq])]

/-- `any` only looks at the predicate's values on the list's members. -/
theorem any_congr_mem {α : Type} (p q : α → Bool) :
    ∀ l : List α, (∀ a ∈ l, p a = q a) → l.any p = l.any q := by
  intro l
  induction l with
  | nil => intro _; rfl
  | cons a rest ih =>
    intro h
    rw [List.any_cons, List.any_cons, h a (List.mem_cons_self a rest),
      ih fun x hx => h x (List.mem_cons_of_mem a hx)]

/-- Every registered extension of the table is made of ASCII characters
only. -/
theorem typeInfoMap_extensions_ascii :
    ∀ p ∈ typeInfoMap, ∀ e ∈ p.2.extensions, ∀ a ∈ e.data, a.toNat < 128 := by
  refine typeInfoMap_cases ?_ ?_ ?_ ?_ ?_ <;> decide

/-- `DetermineType` is insensitive to how the lowering acts on characters
that do not lower into ASCII: any per-character lowering `γ` that agrees
with `lowerChar` about which characters are sent to each ASCII character
(as Go's `unicode.ToLower` does: outside `'A'..'Z'`, `U+0130` and
`U+212A` its image is never ASCII) yields the same result on every
filename.  This discharges the residual gap between `toLowerGo` and the
full Unicode simple case mapping of `strings.ToLower`. -/
theorem determineType_lowering_robust (γ : Char → Char)
    (hγ : ∀ (c a : Char), a.toNat < 128 → (γ c = a ↔ lowerChar c = a)) (f : String) :
    determineTypeLower γ f = DetermineType f := by
  show detLoop ⟨f.data.map γ⟩ typeInfoMap = detLoop (toLowerGo f) typeInfoMap
  rw [detLoop_eq_find, detLoop_eq_find,
    find?_congr_mem (entryMatches ⟨f.data.map γ⟩) (entryMatches (toLowerGo f)) typeInfoMap ?_]
  intro p hp
  rw [entryMatches_eq_suffixMatch p hp, entryMatches_eq_suffixMatch p hp]
  unfold suffixMatch
  apply any_congr_mem _ _ p.2.extensions
  intro e he
  rw [Bool.eq_iff_iff, List.isSuffixOf_iff_suffix, List.isSuffixOf_iff_suffix]
  exact suffix_map_ascii_congr γ lowerChar hγ e.data
    (typeInfoMap_extensions_ascii p hp e he) f.data

/-- The identity instantiation: `lowerChar` itself satisfies the
agreement hypothesis, so the robustness theorem is not vacuous. -/
theorem determineTypeLower_lowerChar (f : String) :
    determineTypeLower lowerChar f = DetermineType f :=
  determineType_lowering_robust lowerChar (fun _ _ _ => Iff.rfl) f

/-- The table threaded through the stateful loop is returned unchanged. -/
theorem detLoopSt_table (f : String) (l table : List (Ty × typeInfo)) :
    (detLoopSt f l table).2 = table := by
  induction l with
  | nil => rfl
  | cons p rest ih =>
    obtain ⟨t, info⟩ := p
    by_cases hc : regexFindMatch
        (if info.regex = "" then { info with regex := makeRegex info.extensions } else info).regex
        f = true
    · simp [detLoopSt, hc]
    · simpa [detLoopSt, hc] using ih

/-- The stateful loop returns the same result as `detLoop`. -/
theorem detLoopSt_fst (f : String) (l table : List (Ty × typeInfo)) :
    (detLoopSt f l table).1 = detLoop f l := by
  induction l with
  | nil => rfl
  | cons p rest ih =>
    obtain ⟨t, info⟩ := p
    by_cases hc : regexFindMatch
        (if info.regex = "" then { info with regex := makeRegex info.extensions } else info).regex
        f = true
    · simp [detLoopSt, detLoop, hc]
    · simpa [detLoopSt, detLoop, hc] using ih

/-- Folding any sequence of stateful `DetermineType` calls leaves the
table untouched. -/
theorem foldSt (fs : List String) (table : List (Ty × typeInfo)) :
    fs.foldl (fun tbl f => (determineTypeSt tbl f).2) table = table := by
  induction fs generalizing table with
  | nil => rfl
  | cons f rest ih =>
    rw [List.foldl_cons,
      show (determineTypeSt table f).2 = table from detLoopSt_table _ _ _, ih]

/-! ## Lemmas about the Entry Walkers -/

/-- With a nil callback, `readTar` iterates to the end of the stream,
invokes nothing, and returns the stream's terminal outcome. -/
theorem readTar_none_callback (entries : List TarHeader) (term : Option GoError) :
    readTar none entries term = (term, []) := by
  induction entries with
  | nil => rfl
  | cons h rest ih => simpa [readTar] using ih

/-- With a nil callback, the zip loop invokes nothing and succeeds. -/
theorem walkZipFiles_none_callback (files : List ZipFile) :
    walkZipFiles none files = (none, []) := by
  induction files with
  | nil => rfl
  | cons f rest ih => simpa [walkZipFiles] using ih

/-- A callback error aborts `readTar` at the failing entry: the exact
error is returned and no later entry sees the callback. -/
theorem readTar_abort (k : TarCallback) (pre : List TarHeader) (hd : TarHeader)
    (post : List TarHeader) (term : Option GoError) (e : GoError)
    (hpre : ∀ x ∈ pre, k x = none) (hk : k hd = some e) :
    readTar (some k) (pre ++ hd :: post) term = (some e, pre ++ [hd]) := by
  induction pre with
  | nil => simp [readTar, hk]
  | cons a rest ih =>
    have ha : k a = none := hpre a (List.mem_cons_self a rest)
    have hr := ih fun x hx => hpre x (List.mem_cons_of_mem a hx)
    simp [readTar, ha, hr]

/-- A callback error aborts the zip loop at the failing entry. -/
theorem walkZipFiles_abort (k : ZipCallback) (pre : List ZipFile) (zf : ZipFile)
    (post : List ZipFile) (e : GoError)
    (hpre : ∀ x ∈ pre, k x = none) (hk : k zf = some e) :
    walkZipFiles (some k) (pre ++ zf :: post) = (some e, pre ++ [zf]) := by
  induction pre with
  | nil => simp [walkZipFiles, hk]
  | cons a rest ih =>
    have ha : k a = none := hpre a (List.mem_cons_self a rest)
    have hr := ih fun x hx => hpre x (List.mem_cons_of_mem a hx)
    simp [walkZipFiles, ha, hr]

/-! ## The claims -/

/-- C1: every filename that ends, case-insensitively, in a suffix
registered for an archive type `t` of the table makes `DetermineType`
return `(t, nil)`, and every filename ending in none of the registered
suffixes makes it return the zero `Type` value together with the
unknown-type error. -/
theorem determineType_registered_suffix_spec :
    (∀ (f : String) (t : Ty) (info : typeInfo), (t, info) ∈ typeInfoMap →
        suffixMatch info.extensions (toLowerGo f) = true →
        DetermineType f = (t, none)) ∧
    (∀ f : String,
        (∀ (t : Ty) (info : typeInfo), (t, info) ∈ typeInfoMap →
          suffixMatch info.extensions (toLowerGo f) = false) →
        DetermineType f = (0, some GoError.errUnknownType)) := by
  constructor
  · intro f t info hmem hsuf
    have hpred : entryMatches (toLowerGo f) (t, info) = true := by
      rw [entryMatches_eq_suffixMatch (t, info) hmem]; exact hsuf
    show detLoop (toLowerGo f) typeInfoMap = (t, none)
    rw [detLoop_eq_find]
    cases hf : typeInfoMap.find? (entryMatches (toLowerGo f)) with
    | none => exact absurd hpred (List.find?_eq_none.mp hf (t, info) hmem)
    | some q =>
      have hq : q = (t, info) :=
        entryMatches_unique (toLowerGo f) q (List.mem_of_find?_eq_some hf) (t, info) hmem
          (List.find?_some hf) hpred
      rw [hq]
  · intro f hnone
    show detLoop (toLowerGo f) typeInfoMap = (0, some GoError.errUnknownType)
    rw [detLoop_eq_find]
    have hfind : typeInfoMap.find? (entryMatches (toLowerGo f)) = none := by
      apply List.find?_eq_none.mpr
      intro p hp hpred
      obtain ⟨t, info⟩ := p
      rw [entryMatches_eq_suffixMatch (t, info) hp, hnone t info hp] at hpred
      exact Bool.noConfusion hpred
    rw [hfind]

/-- Witness for C1: `"foo.tar"` resolves to `Tar`; `"foo.123"` matches no
registered suffix and yields the unknown sentinel with the error. -/
theorem determineType_registered_suffix_spec_witness :
    DetermineType "foo.tar" = (Tar, none) ∧
    DetermineType "foo.123" = (0, some GoError.errUnknownType) := by
  constructor
  · exact determineType_registered_suffix_spec.1 "foo.tar" Tar
      { extensions := [".tar"], regex := "" } (by decide) (by decide)
  · refine determineType_registered_suffix_spec.2 "foo.123" ?_
    intro t info h
    simp only [typeInfoMap, List.mem_cons, List.not_mem_nil, or_false, Prod.mk.injEq] at h
    rcases h with ⟨rfl, rfl⟩ | ⟨rfl, rfl⟩ | ⟨rfl, rfl⟩ | ⟨rfl, rfl⟩ | ⟨rfl, rfl⟩ <;> decide

/-- C2: matching is anchored at the true end of the filename
(last-suffix-wins): `"foo.zip.tar.xz"` resolves to `TarXz` and
`"foo.tar.xz.zip"` to `Zip`, both with nil error; and whenever
`DetermineType` succeeds, some registered extension of the returned type
is a suffix of the lowered filename. -/
theorem determineType_trailing_suffix_precedence :
    DetermineType "foo.zip.tar.xz" = (TarXz, none) ∧
    DetermineType "foo.tar.xz.zip" = (Zip, none) ∧
    (∀ (f : String) (t : Ty), DetermineType f = (t, none) →
      ∃ info : typeInfo, (t, info) ∈ typeInfoMap ∧
        ∃ e ∈ info.extensions, e.data.isSuffixOf (toLowerGo f).data = true) := by
  refine ⟨by decide, by decide, ?_⟩
  intro f t h
  rw [show DetermineType f = detLoop (toLowerGo f) typeInfoMap from rfl,
    detLoop_eq_find] at h
  split at h
  case _ q heq =>
    simp only [Prod.mk.injEq] at h
    obtain ⟨h1, -⟩ := h
    have hqmem : q ∈ typeInfoMap := List.mem_of_find?_eq_some heq
    have hpred : entryMatches (toLowerGo f) q = true := List.find?_some heq
    rw [entryMatches_eq_suffixMatch q hqmem] at hpred
    simp only [suffixMatch, List.any_eq_true] at hpred
    obtain ⟨e, he, hs⟩ := hpred
    refine ⟨q.2, ?_, e, he, hs⟩
    rw [← h1]
    exact hqmem
  case _ heq => simp at h

/-- Witness for C2: the general clause applied at `"foo.zip.tar.xz"`. -/
theorem determineType_trailing_suffix_precedence_witness :
    ∃ info : typeInfo, (TarXz, info) ∈ typeInfoMap ∧
      ∃ e ∈ info.extensions, e.data.isSuffixOf (toLowerGo "foo.zip.tar.xz").data = true :=
  determineType_trailing_suffix_precedence.2.2 "foo.zip.tar.xz" TarXz (by decide)

/-- C4: the value `DetermineType` returns is independent of the order in
which the Go map's entries are ranged over: every permutation of the
table yields the same `(Type, error)` result, because no lowered filename
can end in registered suffixes of two distinct types. -/
theorem determineType_order_independent (order : List (Ty × typeInfo))
    (hperm : order.Perm typeInfoMap) (f : String) :
    determineTypeWith order f = DetermineType f := by
  show detLoop (toLowerGo f) order = detLoop (toLowerGo f) typeInfoMap
  rw [detLoop_eq_find, detLoop_eq_find,
    find?_perm_of_unique hperm (entryMatches (toLowerGo f))
      (fun a ha b hb => entryMatches_unique (toLowerGo f) a (hperm.subset ha) b (hperm.subset hb))]

/-- Witness for C4: iterating the table in reversed order resolves
`"foo.tar.gz"` identically. -/
theorem determineType_order_independent_witness :
    determineTypeWith typeInfoMap.reverse "foo.tar.gz" = DetermineType "foo.tar.gz" :=
  determineType_order_independent typeInfoMap.reverse
    (List.reverse_perm typeInfoMap) "foo.tar.gz"

/-- C5: `DetermineType` is case-insensitive — it agrees on every filename
and its lowercase form; in particular `"foo.tAr.XZ"` resolves to `TarXz`
with nil error. -/
theorem determineType_case_insensitive :
    (∀ f : String, DetermineType f = DetermineType (toLowerGo f)) ∧
    DetermineType "foo.tAr.XZ" = (TarXz, none) := by
  constructor
  · intro f
    show detLoop (toLowerGo f) typeInfoMap = detLoop (toLowerGo (toLowerGo f)) typeInfoMap
    rw [toLowerGo_idem]
  · decide

/-- C6: the type table is never mutated: threading the map's backing
store through `DetermineType` as explicit state returns it unchanged on
every call and across every sequence of calls starting from the table
`init` builds (the walkers do not touch the table at all: it is not among
their inputs), and the stateful run computes the same result. -/
theorem typeInfoMap_read_only :
    (∀ (table : List (Ty × typeInfo)) (f : String), (determineTypeSt table f).2 = table) ∧
    (∀ fs : List String,
      fs.foldl (fun tbl f => (determineTypeSt tbl f).2) typeInfoMap = typeInfoMap) ∧
    (∀ f : String, (determineTypeSt typeInfoMap f).1 = DetermineType f) :=
  ⟨fun table f => detLoopSt_table (toLowerGo f) table table,
   fun fs => foldSt fs typeInfoMap,
   fun f => detLoopSt_fst (toLowerGo f) typeInfoMap typeInfoMap⟩

/-- C7: if the callback errors on an entry, every Walker stops right
there — the callback sees the clean prefix and the failing entry, nothing
after it — and the callback's exact error value is returned unwrapped. -/
theorem walk_callback_error_aborts
    (k : TarCallback) (pre post : List TarHeader) (hd : TarHeader)
    (term : Option GoError) (e : GoError)
    (zk : ZipCallback) (zpre zpost : List ZipFile) (zf : ZipFile) (ze : GoError)
    (hpre : ∀ x ∈ pre, k x = none) (hk : k hd = some e)
    (hzpre : ∀ x ∈ zpre, zk x = none) (hzk : zk zf = some ze) :
    WalkTar none ⟨pre ++ hd :: post, term⟩ (some k) = (some e, pre ++ [hd]) ∧
    WalkTarBzip2 none ⟨pre ++ hd :: post, term⟩ (some k) = (some e, pre ++ [hd]) ∧
    WalkTarGz none (Except.ok ⟨pre ++ hd :: post, term⟩) (some k) = (some e, pre ++ [hd]) ∧
    WalkTarXz none (Except.ok ⟨pre ++ hd :: post, term⟩) (some k) = (some e, pre ++ [hd]) ∧
    WalkZip (Except.ok (zpre ++ zf :: zpost)) (some zk) = (some ze, zpre ++ [zf]) := by
  have ht := readTar_abort k pre hd post term e hpre hk
  have hz := walkZipFiles_abort zk zpre zf zpost ze hzpre hzk
  exact ⟨ht, ht, ht, ht, hz⟩

/-- Witness for C7: a callback that aborts on the entry named "stop"
stops each walker after `["a", "stop"]`, never reaching `"b"`, and its
error comes back verbatim. -/
theorem walk_callback_error_aborts_witness :
    WalkTar none ⟨[⟨"a"⟩, ⟨"stop"⟩, ⟨"b"⟩], none⟩ (some demoTarCallback) =
      (some (GoError.callbackErr "stop"), [⟨"a"⟩, ⟨"stop"⟩]) ∧
    WalkTarBzip2 none ⟨[⟨"a"⟩, ⟨"stop"⟩, ⟨"b"⟩], none⟩ (some demoTarCallback) =
      (some (GoError.callbackErr "stop"), [⟨"a"⟩, ⟨"stop"⟩]) ∧
    WalkTarGz none (Except.ok ⟨[⟨"a"⟩, ⟨"stop"⟩, ⟨"b"⟩], none⟩) (some demoTarCallback) =
      (some (GoError.callbackErr "stop"), [⟨"a"⟩, ⟨"stop"⟩]) ∧
    WalkTarXz none (Except.ok ⟨[⟨"a"⟩, ⟨"stop"⟩, ⟨"b"⟩], none⟩) (some demoTarCallback) =
      (some (GoError.callbackErr "stop"), [⟨"a"⟩, ⟨"stop"⟩]) ∧
    WalkZip (Except.ok [⟨"za"⟩, ⟨"stop"⟩, ⟨"zb"⟩]) (some demoZipCallback) =
      (some (GoError.callbackErr "stop"), [⟨"za"⟩, ⟨"stop"⟩]) :=
  walk_callback_error_aborts demoTarCallback [⟨"a"⟩] [⟨"b"⟩] ⟨"stop"⟩ none
    (GoError.callbackErr "stop") demoZipCallback [⟨"za"⟩] [⟨"zb"⟩] ⟨"stop"⟩
    (GoError.callbackErr "stop") (by decide) (by decide) (by decide) (by decide)

/-- C8: when the path cannot be opened, each of the five walkers returns
the open-failure error wrapping the underlying cause and the callback is
invoked zero times (empty invocation trace). -/
theorem walk_open_failure (cause : GoError) (content : TarStream)
    (gzResult xzResult : Except GoError TarStream)
    (cb : Option TarCallback) (zcb : Option ZipCallback) :
    WalkTar (some cause) content cb = (some (GoError.archiveOpenFailed cause), []) ∧
    WalkTarBzip2 (some cause) content cb = (some (GoError.archiveOpenFailed cause), []) ∧
    WalkTarGz (some cause) gzResult cb = (some (GoError.archiveOpenFailed cause), []) ∧
    WalkTarXz (some cause) xzResult cb = (some (GoError.archiveOpenFailed cause), []) ∧
    WalkZip (Except.error cause) zcb = (some (GoError.archiveOpenFailed cause), []) :=
  ⟨rfl, rfl, rfl, rfl, rfl⟩

/-- C9: a nil callback is never invoked (empty trace) but iteration still
runs to the end of the archive: a clean end-of-archive returns nil and a
mid-stream decode error is propagated verbatim. -/
theorem walk_nil_callback (entries : List TarHeader) (term : Option GoError)
    (files : List ZipFile) :
    WalkTar none ⟨entries, term⟩ none = (term, []) ∧
    WalkTarBzip2 none ⟨entries, term⟩ none = (term, []) ∧
    WalkTarGz none (Except.ok ⟨entries, term⟩) none = (term, []) ∧
    WalkTarXz none (Except.ok ⟨entries, term⟩) none = (term, []) ∧
    WalkZip (Except.ok files) none = (none, []) := by
  have ht := readTar_none_callback entries term
  exact ⟨ht, ht, ht, ht, walkZipFiles_none_callback files⟩

/-- C10: after a successful open, a gzip/xz header validation failure is
reported as a decoder-construction error wrapping its cause, and that
error class is distinct from the open-failure class. -/
theorem walk_decoder_construction_failure (cause : GoError) (cb : Option TarCallback) :
    WalkTarGz none (Except.error cause) cb = (some (GoError.newGzReaderFailed cause), []) ∧
    WalkTarXz none (Except.error cause) cb = (some (GoError.newXzReaderFailed cause), []) ∧
    (∀ c c' : GoError, GoError.newGzReaderFailed c ≠ GoError.archiveOpenFailed c') ∧
    (∀ c c' : GoError, GoError.newXzReaderFailed c ≠ GoError.archiveOpenFailed c') :=
  ⟨rfl, rfl, fun _ _ h => GoError.noConfusion h, fun _ _ h => GoError.noConfusion h⟩

end Archive
